import Mathlib

/-!
Shallow embedding of `src/memory_pool.cpp`: the raw allocator `MemoryPool`
(fixed-size chunks carved out of bulk-allocated blocks, with an intrusive
free list threaded through the first machine word of each freed chunk) and
the typed wrapper `TypedMemoryPool`.

Addresses are modelled as `Nat`, with `0` playing the role of `nullptr`.
The machine words the allocator itself writes (the `next` field of a free
chunk, the `next` field at the start of each block) live in an explicit
word memory `mem : Nat → Nat`.  The addresses handed back by
`new char[block_size_]` are nondeterministic in C++; here they are drawn
from an explicit oracle `oracle : Nat → Nat`, consumed in order.
The field `blocks` mirrors, as a Lean list (newest block first), the
singly-linked block list that the code threads through memory; it is kept
alongside the memory so that specifications can quantify over the blocks
the allocator owns.
-/

namespace MemPool

/-- `sizeof(MemoryPool::Chunk*)` = `sizeof(MemoryPool::Block*)` on the
modelled 64-bit platform (the pointer size). -/
def ptrSize : Nat := 8

/-- `MemoryPool::getAssignment` (src/memory_pool.cpp lines 54-59):
`if (chunk_size % chunk_alignment == 0) return chunk_size;
 return chunk_size / chunk_alignment * (chunk_alignment + 1);` -/
def getAssignment (chunk_size chunk_alignment : Nat) : Nat :=
  if chunk_size % chunk_alignment = 0 then chunk_size
  else chunk_size / chunk_alignment * (chunk_alignment + 1)

/-- Modelled from the spec (section 8, "Size/alignment invariant"): the
smallest value that is ≥ `base` and is a multiple of `a`. -/
def leastAlignedGE (base a : Nat) : Nat :=
  if base % a = 0 then base else (base / a + 1) * a

/-- The state of one `MemoryPool` instance (src/memory_pool.cpp lines 32-50),
plus the word memory, the block-address oracle, and the list of block base
addresses (newest first) mirroring the linked block list. -/
structure MPState where
  chunk_size_ : Nat
  block_size_ : Nat
  chunks_per_block_ : Nat
  /-- `Block* current_block_`; 0 = nullptr. -/
  current_block_ : Nat
  /-- `Chunk* current_chunk_` (the bump cursor); 0 = nullptr. -/
  current_chunk_ : Nat
  /-- `Chunk* last_chunk_` (the bump limit); 0 = nullptr. -/
  last_chunk_ : Nat
  /-- `Chunk* free_chunks_` (head of the intrusive free list); 0 = nullptr. -/
  free_chunks_ : Nat
  /-- First machine word stored at each address (the `next` links). -/
  mem : Nat → Nat
  /-- Addresses successively returned by `new char[block_size_]`. -/
  oracle : Nat → Nat
  /-- Number of `new char[]` calls performed so far (= blocks allocated). -/
  alloc_count : Nat
  /-- Base addresses of all blocks allocated so far, newest first. -/
  blocks : List Nat

/-- Write `v` into the machine word at address `a`. -/
def memWrite (m : Nat → Nat) (a v : Nat) : Nat → Nat :=
  fun x => if x = a then v else m x

/-- The constructor `MemoryPool::MemoryPool` (src/memory_pool.cpp lines 77-94):
`chunk_size_ = getAssignment(max(sizeof(Chunk*), chunk_size), chunk_alignment);
 chunks_per_block_ = initial_chunks_per_block;
 block_size_ = sizeof(Block*) + (chunk_size_ + 1) * initial_chunks_per_block;`
with all four pointers set to nullptr. -/
def mkPool (chunk_size chunk_alignment initial_chunks_per_block : Nat)
    (oracle : Nat → Nat) : MPState :=
  let cs := getAssignment (max ptrSize chunk_size) chunk_alignment
  { chunk_size_ := cs
    block_size_ := ptrSize + (cs + 1) * initial_chunks_per_block
    chunks_per_block_ := initial_chunks_per_block
    current_block_ := 0
    current_chunk_ := 0
    last_chunk_ := 0
    free_chunks_ := 0
    mem := fun _ => 0
    oracle := oracle
    alloc_count := 0
    blocks := [] }

/-- `MemoryPool::allocateBlock` (src/memory_pool.cpp lines 97-112):
obtain `block_size_` raw bytes (base address from the oracle), link the new
block onto the block list (`new_block->next = current_block_`), then place
the bump cursor after the `Block*` header, padded so the first chunk address
is a multiple of `chunk_size_`, and the bump limit `chunks_per_block_`
chunks further.  (The C++ takes a `blockSize` argument but ignores it and
uses the member `block_size_`.) -/
def allocateBlock (s : MPState) : MPState :=
  let new_block := s.oracle s.alloc_count
  let first_chunk := new_block + ptrSize
  let padding := s.chunk_size_ - first_chunk % s.chunk_size_
  { s with
    mem := memWrite s.mem new_block s.current_block_
    current_block_ := new_block
    current_chunk_ := first_chunk + padding
    last_chunk_ := first_chunk + padding + s.chunks_per_block_ * s.chunk_size_
    alloc_count := s.alloc_count + 1
    blocks := new_block :: s.blocks }

/-- `MemoryPool::allocate` (src/memory_pool.cpp lines 115-134): if the free
list is non-empty, pop and return its head; otherwise, if the bump cursor
has reached the bump limit (`current_chunk_ >= last_chunk_`), allocate a new
block first; then return the chunk at the bump cursor and advance the cursor
by `chunk_size_`. -/
def allocate (s : MPState) : Nat × MPState :=
  if s.free_chunks_ ≠ 0 then
    (s.free_chunks_, { s with free_chunks_ := s.mem s.free_chunks_ })
  else
    let s1 := if s.last_chunk_ ≤ s.current_chunk_ then allocateBlock s else s
    (s1.current_chunk_, { s1 with current_chunk_ := s1.current_chunk_ + s1.chunk_size_ })

/-- `MemoryPool::deallocate` (src/memory_pool.cpp lines 137-142): no-op on
nullptr; otherwise write the current free-list head into `ptr`'s first word
(`((Chunk*)ptr)->next = free_chunks_`) and make `ptr` the new head. -/
def deallocate (s : MPState) (ptr : Nat) : MPState :=
  if ptr ≠ 0 then
    { s with
      mem := memWrite s.mem ptr s.free_chunks_
      free_chunks_ := ptr }
  else s

/-- `n` consecutive `allocate()` calls: the returned addresses in order, and
the final state. -/
def allocN : Nat → MPState → List Nat × MPState
  | 0, s => ([], s)
  | n + 1, s =>
    let r := allocate s
    let r2 := allocN n r.2
    (r.1 :: r2.1, r2.2)

/-- `deallocate` each pointer of the list in order. -/
def deallocList (s : MPState) : List Nat → MPState
  | [] => s
  | p :: ps => deallocList (deallocate s p) ps

/-- The loop of the destructor `MemoryPool::~MemoryPool`
(src/memory_pool.cpp lines 145-152): walk the block list from `cur` through
the `next` links stored in memory, returning the block bases released (in
release order).  The recursion is fuelled; the destructor itself is
`destructorFreed`, which supplies enough fuel for the whole block list. -/
def freeBlocksWalk (mem : Nat → Nat) : Nat → Nat → List Nat
  | 0, _ => []
  | fuel + 1, cur => if cur ≠ 0 then cur :: freeBlocksWalk mem fuel (mem cur) else []

/-- The block bases released by `MemoryPool::~MemoryPool`
(src/memory_pool.cpp lines 145-152), in release order.  The destructor only
follows block `next` links and frees block storage; it never visits or
finalizes individual chunks. -/
def destructorFreed (s : MPState) : List Nat :=
  freeBlocksWalk s.mem s.blocks.length s.current_block_

/-- Does the linked block list threaded through memory, starting at `cur`,
consist exactly of the bases `bs` in order? -/
def isBlockChain (mem : Nat → Nat) : Nat → List Nat → Bool
  | cur, [] => cur == 0
  | cur, b :: bs => cur == b && (b != 0) && isBlockChain mem (mem b) bs

/-- The free list threaded through memory: starting from `head`, the chain
of `next` links passes exactly through `l` in order and then continues at
`tail`. -/
def freeListIs (mem : Nat → Nat) : Nat → List Nat → Nat → Prop
  | head, [], tail => head = tail
  | head, q :: qs, tail => head = q ∧ q ≠ 0 ∧ freeListIs mem (mem q) qs tail

/-- The outcome of running a C++ constructor or destructor body: normal
completion, a throw of an exception derived from `std::exception`, or a
throw of any other type (which a `catch (std::exception&)` clause does not
match). -/
inductive ExcOutcome where
  | ok
  | stdExc
  | otherExc
deriving DecidableEq

/-- `TypedMemoryPool<T>::make` (src/memory_pool.cpp lines 161-173): obtain a
raw chunk from the allocator, then run `new(mem) T{args...}` there; `ctor a`
is the outcome of that construction at chunk address `a`.  On normal
completion the typed pointer (the chunk address) is returned.  The `try` is
guarded by `catch (std::exception&)` only: a `std::exception`-derived throw
is caught, the chunk is handed back via `deallocate` and `nullptr` (`none`)
is returned, but any other throw propagates out of `make`
(`Except.error`) without reaching the `deallocate` call. -/
def make (s : MPState) (ctor : Nat → ExcOutcome) :
    Except Unit (Option Nat) × MPState :=
  let r := allocate s
  match ctor r.1 with
  | ExcOutcome.ok => (Except.ok (some r.1), r.2)
  | ExcOutcome.stdExc => (Except.ok none, deallocate r.2 r.1)
  | ExcOutcome.otherExc => (Except.error (), r.2)

/-- `TypedMemoryPool<T>::destroy` (src/memory_pool.cpp lines 176-184):
no-op on nullptr; otherwise run `ptr->~T()` inside
`try { ... } catch (std::exception&) {}` and then call `deallocate(ptr)`.
A `std::exception`-derived throw is caught and swallowed, falling through
to `deallocate`; any other throw propagates out of `destroy`
(`Except.error`) before `deallocate` is reached. -/
def destroy (s : MPState) (ptr : Nat) (dtor : ExcOutcome) :
    Except Unit Unit × MPState :=
  if ptr ≠ 0 then
    match dtor with
    | ExcOutcome.ok => (Except.ok (), deallocate s ptr)
    | ExcOutcome.stdExc => (Except.ok (), deallocate s ptr)
    | ExcOutcome.otherExc => (Except.error (), s)
  else (Except.ok (), s)

end MemPool

namespace MemPool

/-! ## C1: the sizing rule -/

/-- C1: the claim states that `chunk_size_` is the smallest value ≥
`max(pointer_size, chunk_size)` that is a multiple of `chunk_alignment`.
The code contradicts this: for `chunk_size = 10`, `chunk_alignment = 4`,
`getAssignment` returns `10/4*(4+1) = 10`, which is not a multiple of 4 at
all, while the least multiple of 4 that is ≥ max(8,10) is 12.  The
constructed pool therefore has `chunk_size_ = 10 ≠ 12`. -/
theorem getAssignment_violates_least_multiple :
    getAssignment (max ptrSize 10) 4 = 10 ∧
    ¬ (4 ∣ getAssignment (max ptrSize 10) 4) ∧
    leastAlignedGE (max ptrSize 10) 4 = 12 ∧
    (mkPool 10 4 1 (fun _ => 0)).chunk_size_ = 10 := by decide

/-! ## Basic unfolding lemmas -/

theorem allocN_zero (s : MPState) : allocN 0 s = ([], s) := rfl

theorem allocN_succ_fst (n : Nat) (s : MPState) :
    (allocN (n + 1) s).1 = (allocate s).1 :: (allocN n (allocate s).2).1 := rfl

theorem allocN_succ_snd (n : Nat) (s : MPState) :
    (allocN (n + 1) s).2 = (allocN n (allocate s).2).2 := rfl

theorem allocN_add (a b : Nat) : ∀ s : MPState,
    (allocN (a + b) s).2 = (allocN b (allocN a s).2).2 := by
  induction a with
  | zero => intro s; rw [Nat.zero_add]; rfl
  | succ t ih =>
    intro s
    have he : t + 1 + b = (t + b) + 1 := by omega
    calc (allocN (t + 1 + b) s).2 = (allocN ((t + b) + 1) s).2 := by rw [he]
      _ = (allocN (t + b) (allocate s).2).2 := rfl
      _ = (allocN b (allocN t (allocate s).2).2).2 := ih _
      _ = (allocN b (allocN (t + 1) s).2).2 := rfl

theorem allocN_length (n : Nat) : ∀ s : MPState, (allocN n s).1.length = n := by
  induction n with
  | zero => intro s; rfl
  | succ t ih => intro s; rw [allocN_succ_fst, List.length_cons, ih]

/-- While the free list is empty and the bump cursor stays strictly inside
the current block, `allocate` performs pure bump allocation: no block is
allocated, no memory is written, only the cursor advances. -/
theorem allocN_bump (m : Nat) : ∀ s : MPState, s.free_chunks_ = 0 →
    0 < s.chunk_size_ →
    s.current_chunk_ + m * s.chunk_size_ ≤ s.last_chunk_ →
    (allocN m s).2 =
      { s with current_chunk_ := s.current_chunk_ + m * s.chunk_size_ } := by
  induction m with
  | zero =>
    intro s h0 hcs hle
    show s = _
    rw [Nat.zero_mul, Nat.add_zero]
  | succ t ih =>
    intro s h0 hcs hle
    rw [Nat.succ_mul] at hle
    have hnotle : ¬ s.last_chunk_ ≤ s.current_chunk_ := by
      have := Nat.mul_pos (Nat.succ_pos t) hcs
      omega
    have hall : allocate s =
        (s.current_chunk_,
         { s with current_chunk_ := s.current_chunk_ + s.chunk_size_ }) := by
      simp [allocate, h0, hnotle]
    rw [allocN_succ_snd, hall]
    have hres := ih { s with current_chunk_ := s.current_chunk_ + s.chunk_size_ }
      h0 hcs (by simpa using by omega)
    rw [hres]
    have harith : s.current_chunk_ + s.chunk_size_ + t * s.chunk_size_ =
        s.current_chunk_ + (t * s.chunk_size_ + s.chunk_size_) := by omega
    simp [harith, Nat.succ_mul]

/-! ## C2: chunk/block bounds -/

/-- The concrete pool used for the C2 evaluation: `MemoryPool(16, 16, 2)`,
with the single block placed by `new` at the 16-aligned address 160. -/
def sC2 : MPState := mkPool 16 16 2 (fun k => 160 + 160 * k)

/-- C2: the claim states every chunk returned by `allocate()` lies entirely
within some block owned by the allocator.  Evaluating the code on
`MemoryPool(16, 16, 2)` with its one block at base 160: `chunk_size_ = 16`,
`block_size_ = 8 + (16+1)*2 = 42`, so the block spans `[160, 202)`; the
padding after the 8-byte header is `16 - 168 % 16 = 8`, so the second
`allocate()` returns address 192, whose chunk spans `[192, 208)` —
6 bytes past the end of the only block. -/
theorem allocate_returns_chunk_outside_block :
    (allocate (allocate sC2).2).2.blocks = [160] ∧
    (allocate (allocate sC2).2).2.block_size_ = 42 ∧
    (allocate (allocate sC2).2).2.chunk_size_ = 16 ∧
    (allocate (allocate sC2).2).1 = 192 ∧
    160 + 42 < 192 + 16 := by decide

/-! ## C6: block growth -/

/-- The concrete pool used for the C6 counterexample: `MemoryPool(8, 8, 2)`
(so `chunks_per_block_ = 2`), blocks placed at 96, 192, ... -/
def sC6 : MPState := mkPool 8 8 2 (fun k => 96 + 96 * k)

/-- C6 counterexample: from a fresh pool with `chunks_per_block = 2`,
performing `2 + 1 = 3` consecutive `allocate()` calls performs TWO block
allocations, not exactly one: the first call already allocates the pool's
initial block (`alloc_count = 1` after one call), and the third call
allocates the second block (`alloc_count = 2 ≠ 1` after three calls). -/
theorem blockGrowth_counterexample :
    (allocN 1 sC6).2.alloc_count = 1 ∧
    (allocN 3 sC6).2.alloc_count = 2 ∧
    ¬ (allocN 3 sC6).2.alloc_count = 1 := by decide

/-- C6 amended: starting from a fresh pool, `chunks_per_block + 1`
consecutive `allocate()` calls trigger exactly TWO block allocations: one on
the first call (the pool has no block yet) and one on the
`(chunks_per_block + 1)`-th call; after each of calls `1..chunks_per_block`
exactly one block has been allocated. -/
theorem blockGrowth_amended (cs ca n : Nat) (oracle : Nat → Nat)
    (hcs : 0 < getAssignment (max ptrSize cs) ca) (hn : 0 < n) :
    (∀ k, k ≤ n → 1 ≤ k →
      (allocN k (mkPool cs ca n oracle)).2.alloc_count = 1) ∧
    (allocN (n + 1) (mkPool cs ca n oracle)).2.alloc_count = 2 := by
  set s0 := mkPool cs ca n oracle with hs0
  set sB := allocateBlock s0 with hsB
  have hcs' : sB.chunk_size_ = getAssignment (max ptrSize cs) ca := rfl
  have h1 : (allocate s0).2 =
      { sB with current_chunk_ := sB.current_chunk_ + sB.chunk_size_ } := by
    simp [allocate, hs0, mkPool, hsB]
  have hlast : sB.last_chunk_ = sB.current_chunk_ + n * sB.chunk_size_ := by
    simp [hsB, allocateBlock, hs0, mkPool, Nat.mul_comm]
  -- state after the first k calls, 1 ≤ k ≤ n
  have hbump : ∀ m, m + 1 ≤ n →
      (allocN (m + 1) s0).2 =
        { sB with current_chunk_ :=
            sB.current_chunk_ + sB.chunk_size_ + m * sB.chunk_size_ } := by
    intro m hm
    rw [allocN_succ_snd, h1]
    exact allocN_bump m _ rfl (by rw [hcs']; exact hcs)
      (by
        show sB.current_chunk_ + sB.chunk_size_ + m * sB.chunk_size_ ≤ sB.last_chunk_
        rw [hlast]
        have : (m + 1) * sB.chunk_size_ ≤ n * sB.chunk_size_ :=
          Nat.mul_le_mul_right _ hm
        rw [Nat.succ_mul] at this
        omega)
  constructor
  · intro k hk h1k
    obtain ⟨m, rfl⟩ : ∃ m, k = m + 1 := ⟨k - 1, by omega⟩
    rw [hbump m hk]
    simp [hsB, allocateBlock, hs0, mkPool]
  · -- the (n+1)-th call: split off the last call
    obtain ⟨m, rfl⟩ : ∃ m, n = m + 1 := ⟨n - 1, by omega⟩
    have hsplit : (allocN (m + 1 + 1) s0).2 = (allocate (allocN (m + 1) s0).2).2 := by
      rw [allocN_add (m + 1) 1]
      rfl
    rw [hsplit, hbump m (Nat.le_refl _)]
    set sN : MPState :=
      { sB with current_chunk_ :=
          sB.current_chunk_ + sB.chunk_size_ + m * sB.chunk_size_ } with hsN
    have hcursor : sN.last_chunk_ ≤ sN.current_chunk_ := by
      show sB.last_chunk_ ≤ sB.current_chunk_ + sB.chunk_size_ + m * sB.chunk_size_
      rw [hlast, Nat.succ_mul]
      omega
    have hfree : sN.free_chunks_ = 0 := rfl
    simp [allocate, hfree, hcursor, allocateBlock]
    rfl

/-- C6 amended, evaluated: `MemoryPool(8, 8, 2)` satisfies the hypotheses and
the amended block-growth property. -/
theorem blockGrowth_amended_witness :
    0 < getAssignment (max ptrSize 8) 8 ∧ 0 < 2 ∧
    ((∀ k, k ≤ 2 → 1 ≤ k →
      (allocN k (mkPool 8 8 2 (fun k => 96 + 96 * k))).2.alloc_count = 1) ∧
    (allocN (2 + 1) (mkPool 8 8 2 (fun k => 96 + 96 * k))).2.alloc_count = 2) :=
  ⟨by decide, by decide,
   blockGrowth_amended 8 8 2 (fun k => 96 + 96 * k) (by decide) (by decide)⟩

/-! ## C7: allocate pops the free list -/

/-- C7: whenever the free list is non-empty, `allocate()` returns its head
and replaces the head by the head's stored `next` word; no block is
allocated, no memory word is written, and the bump cursor and limit are
untouched. -/
theorem allocate_pops_free_head (s : MPState) (h : s.free_chunks_ ≠ 0) :
    (allocate s).1 = s.free_chunks_ ∧
    (allocate s).2.free_chunks_ = s.mem s.free_chunks_ ∧
    (allocate s).2.mem = s.mem ∧
    (allocate s).2.alloc_count = s.alloc_count ∧
    (allocate s).2.blocks = s.blocks ∧
    (allocate s).2.current_block_ = s.current_block_ ∧
    (allocate s).2.current_chunk_ = s.current_chunk_ ∧
    (allocate s).2.last_chunk_ = s.last_chunk_ := by
  simp [allocate, h]

/-! ## C8: deallocate pushes onto the free list -/

/-- C8: `deallocate(nullptr)` is a no-op; `deallocate(p)` for non-null `p`
writes the current free-list head into `p`'s first machine word and makes
`p` the new head. -/
theorem deallocate_pushes_free_list (s : MPState) (p : Nat) (hp : p ≠ 0) :
    deallocate s 0 = s ∧
    (deallocate s p).free_chunks_ = p ∧
    (deallocate s p).mem = memWrite s.mem p s.free_chunks_ := by
  refine ⟨by simp [deallocate], ?_, ?_⟩ <;> simp [deallocate, hp]

/-! ## C10: deallocate frame condition -/

/-- C10: `deallocate(p)` for non-null `p` modifies only the free-list head
and the first machine word of the chunk at `p`; every other configuration
field and every other memory word is unchanged. -/
theorem deallocate_frame (s : MPState) (p : Nat) (hp : p ≠ 0) :
    (deallocate s p).chunk_size_ = s.chunk_size_ ∧
    (deallocate s p).block_size_ = s.block_size_ ∧
    (deallocate s p).chunks_per_block_ = s.chunks_per_block_ ∧
    (deallocate s p).current_block_ = s.current_block_ ∧
    (deallocate s p).blocks = s.blocks ∧
    (deallocate s p).current_chunk_ = s.current_chunk_ ∧
    (deallocate s p).last_chunk_ = s.last_chunk_ ∧
    (deallocate s p).alloc_count = s.alloc_count ∧
    (deallocate s p).free_chunks_ = p ∧
    (∀ a, a ≠ p → (deallocate s p).mem a = s.mem a) := by
  have hd : deallocate s p =
      { s with mem := memWrite s.mem p s.free_chunks_, free_chunks_ := p } := by
    simp [deallocate, hp]
  rw [hd]
  refine ⟨rfl, rfl, rfl, rfl, rfl, rfl, rfl, rfl, rfl, ?_⟩
  intro a ha
  simp [memWrite, ha]

/-! ## Concrete witness states -/

/-- `MemoryPool(8, 8, 2)` with blocks at 96, 192, ..., after two
`allocate()` calls: the chunks at 112 and 120 are handed out, the bump
cursor sits at the bump limit 128, the free list is empty. -/
def sW : MPState := (allocN 2 (mkPool 8 8 2 (fun k => 96 + 96 * k))).2

/-- `sW` after `deallocate(112)`: the free list holds exactly the chunk
112. -/
def sWf : MPState := deallocate sW 112

theorem allocate_pops_free_head_witness :
    sWf.free_chunks_ ≠ 0 ∧
    ((allocate sWf).1 = sWf.free_chunks_ ∧
     (allocate sWf).2.free_chunks_ = sWf.mem sWf.free_chunks_ ∧
     (allocate sWf).2.mem = sWf.mem ∧
     (allocate sWf).2.alloc_count = sWf.alloc_count ∧
     (allocate sWf).2.blocks = sWf.blocks ∧
     (allocate sWf).2.current_block_ = sWf.current_block_ ∧
     (allocate sWf).2.current_chunk_ = sWf.current_chunk_ ∧
     (allocate sWf).2.last_chunk_ = sWf.last_chunk_) :=
  ⟨by decide, allocate_pops_free_head sWf (by decide)⟩

theorem deallocate_pushes_free_list_witness :
    (112 : Nat) ≠ 0 ∧
    (deallocate sW 0 = sW ∧
     (deallocate sW 112).free_chunks_ = 112 ∧
     (deallocate sW 112).mem = memWrite sW.mem 112 sW.free_chunks_) :=
  ⟨by decide, deallocate_pushes_free_list sW 112 (by decide)⟩

theorem deallocate_frame_witness :
    (112 : Nat) ≠ 0 ∧
    ((deallocate sW 112).chunk_size_ = sW.chunk_size_ ∧
     (deallocate sW 112).block_size_ = sW.block_size_ ∧
     (deallocate sW 112).chunks_per_block_ = sW.chunks_per_block_ ∧
     (deallocate sW 112).current_block_ = sW.current_block_ ∧
     (deallocate sW 112).blocks = sW.blocks ∧
     (deallocate sW 112).current_chunk_ = sW.current_chunk_ ∧
     (deallocate sW 112).last_chunk_ = sW.last_chunk_ ∧
     (deallocate sW 112).alloc_count = sW.alloc_count ∧
     (deallocate sW 112).free_chunks_ = 112 ∧
     (∀ a, a ≠ 112 → (deallocate sW 112).mem a = sW.mem a)) :=
  ⟨by decide, deallocate_frame sW 112 (by decide)⟩

/-! ## C4: construction failure inside `make` -/

/-- C4: the claim states that on every construction failure the chunk is
returned via `deallocate` before the operation returns, with no leak.
Evaluating `make` on the state `sWf` (free list = the chunk 112): the chunk
obtained is 112, and

* if the constructor throws a `std::exception`, the `catch` clause runs:
  `make` returns `nullptr` normally and 112 is back at the head of the free
  list (this is the code's intent — its comment reads "Avoid memory leak if
  the object creation failed");
* but if the constructor throws anything not derived from `std::exception`,
  the exception propagates out of `make`, `deallocate` is never reached,
  and 112 is gone: the free list is empty again and the bump cursor has not
  moved, so the chunk is leaked — contradicting the claim. -/
theorem make_leaks_chunk_on_uncaught_ctor_exception :
    (allocate sWf).1 = 112 ∧
    (make sWf (fun _ => ExcOutcome.stdExc)).1 = Except.ok none ∧
    (make sWf (fun _ => ExcOutcome.stdExc)).2.free_chunks_ = 112 ∧
    (make sWf (fun _ => ExcOutcome.otherExc)).1 = Except.error () ∧
    (make sWf (fun _ => ExcOutcome.otherExc)).2.free_chunks_ = 0 ∧
    (make sWf (fun _ => ExcOutcome.otherExc)).2.current_chunk_ =
      sWf.current_chunk_ ∧
    (make sWf (fun _ => ExcOutcome.otherExc)).2.alloc_count =
      sWf.alloc_count :=
  ⟨rfl, rfl, rfl, rfl, rfl, rfl, rfl⟩

/-! ## C5: destructor failure inside `destroy` -/

/-- C5: the claim states that `destroy` unconditionally returns the chunk to
the free list even if the destructor raises, and that a destructor failure
never propagates.  Evaluating `destroy` on the state `sW` (empty free list,
chunks 112 and 120 handed out):

* `destroy(nullptr)` is a no-op, and a `std::exception`-derived throw is
  indeed swallowed (`Except.ok`) with 112 pushed onto the free list;
* but a throw not derived from `std::exception` is not matched by
  `catch (std::exception&)`: it propagates out of `destroy`
  (`Except.error`) and `deallocate` is skipped — the free list is still
  empty, contradicting both "unconditionally returns the chunk" and "never
  propagates". -/
theorem destroy_skips_deallocate_on_uncaught_dtor_exception :
    (destroy sW 0 ExcOutcome.otherExc).1 = Except.ok () ∧
    (destroy sW 0 ExcOutcome.otherExc).2.free_chunks_ = sW.free_chunks_ ∧
    (destroy sW 112 ExcOutcome.stdExc).1 = Except.ok () ∧
    (destroy sW 112 ExcOutcome.stdExc).2.free_chunks_ = 112 ∧
    (destroy sW 112 ExcOutcome.otherExc).1 = Except.error () ∧
    (destroy sW 112 ExcOutcome.otherExc).2.free_chunks_ = 0 ∧
    sW.free_chunks_ = 0 :=
  ⟨rfl, rfl, rfl, rfl, rfl, rfl, rfl⟩

/-! ## C3: the LIFO reuse property

Deallocating a batch of distinct chunks threads them onto the intrusive
free list; the next allocations pop them back in most-recently-freed-first
order without growing the pool. -/

theorem deallocate_keeps_config (s : MPState) (p : Nat) :
    (deallocate s p).alloc_count = s.alloc_count ∧
    (deallocate s p).blocks = s.blocks ∧
    (deallocate s p).current_chunk_ = s.current_chunk_ ∧
    (deallocate s p).last_chunk_ = s.last_chunk_ ∧
    (deallocate s p).chunk_size_ = s.chunk_size_ := by
  by_cases hp : p = 0 <;> simp [deallocate, hp]

theorem deallocList_frame (qs : List Nat) : ∀ s : MPState,
    (deallocList s qs).alloc_count = s.alloc_count ∧
    (deallocList s qs).blocks = s.blocks ∧
    (deallocList s qs).current_chunk_ = s.current_chunk_ ∧
    (deallocList s qs).last_chunk_ = s.last_chunk_ ∧
    (deallocList s qs).chunk_size_ = s.chunk_size_ := by
  induction qs with
  | nil => intro s; exact ⟨rfl, rfl, rfl, rfl, rfl⟩
  | cons p ps ih =>
    intro s
    have h1 := deallocate_keeps_config s p
    have h2 := ih (deallocate s p)
    exact ⟨h2.1.trans h1.1, h2.2.1.trans h1.2.1, h2.2.2.1.trans h1.2.2.1,
           h2.2.2.2.1.trans h1.2.2.2.1, h2.2.2.2.2.trans h1.2.2.2.2⟩

theorem deallocate_mem_ne (s : MPState) (p x : Nat) (hx : x ≠ p) :
    (deallocate s p).mem x = s.mem x := by
  by_cases hp : p = 0 <;> simp [deallocate, hp, memWrite, hx]

theorem deallocList_mem_notin (qs : List Nat) : ∀ (s : MPState) (x : Nat),
    x ∉ qs → (deallocList s qs).mem x = s.mem x := by
  induction qs with
  | nil => intro s x _; rfl
  | cons p ps ih =>
    intro s x hx
    have hxp : x ≠ p := fun h => hx (h ▸ List.mem_cons_self p ps)
    have hxps : x ∉ ps := fun h => hx (List.mem_cons_of_mem p h)
    exact (ih (deallocate s p) x hxps).trans (deallocate_mem_ne s p x hxp)

theorem freeListIs_snoc (m : Nat → Nat) (q : Nat) (hq : q ≠ 0) :
    ∀ (l : List Nat) (h : Nat),
      freeListIs m h l q → freeListIs m h (l ++ [q]) (m q) := by
  intro l
  induction l with
  | nil =>
    intro h hf
    exact ⟨hf, hq, rfl⟩
  | cons x xs ih =>
    intro h hf
    obtain ⟨hh, hx, hrest⟩ := hf
    exact ⟨hh, hx, ih (m x) hrest⟩

theorem deallocList_builds_free_list (qs : List Nat) : ∀ s : MPState,
    0 ∉ qs → qs.Nodup →
    freeListIs (deallocList s qs).mem (deallocList s qs).free_chunks_
      qs.reverse s.free_chunks_ := by
  induction qs with
  | nil => intro s _ _; rfl
  | cons p ps ih =>
    intro s h0 hnd
    have hp : p ≠ 0 := by
      intro h
      exact h0 (by rw [h]; exact List.mem_cons_self _ _)
    have h0ps : 0 ∉ ps := fun h => h0 (List.mem_cons_of_mem _ h)
    obtain ⟨hpps, hndps⟩ := List.nodup_cons.mp hnd
    have ihr := ih (deallocate s p) h0ps hndps
    have hs1free : (deallocate s p).free_chunks_ = p := by
      simp [deallocate, hp]
    rw [hs1free] at ihr
    have hmp : (deallocList (deallocate s p) ps).mem p = s.free_chunks_ := by
      rw [deallocList_mem_notin ps (deallocate s p) p hpps]
      simp [deallocate, hp, memWrite]
    have happ := freeListIs_snoc (deallocList (deallocate s p) ps).mem p hp
      ps.reverse (deallocList (deallocate s p) ps).free_chunks_ ihr
    rw [hmp] at happ
    rw [List.reverse_cons]
    exact happ

theorem allocN_pops (l : List Nat) : ∀ (s : MPState) (tail : Nat),
    freeListIs s.mem s.free_chunks_ l tail →
    (allocN l.length s).1 = l ∧
    (allocN l.length s).2 = { s with free_chunks_ := tail } := by
  induction l with
  | nil =>
    intro s tail hf
    have h : s.free_chunks_ = tail := hf
    exact ⟨rfl, by subst h; rfl⟩
  | cons q qs ih =>
    intro s tail hf
    obtain ⟨hh, hq, hrest⟩ := hf
    have hfq : s.free_chunks_ ≠ 0 := by rw [hh]; exact hq
    have ha1 : (allocate s).1 = s.free_chunks_ := by simp [allocate, hfq]
    have ha2 : (allocate s).2 =
        { s with free_chunks_ := s.mem s.free_chunks_ } := by
      simp [allocate, hfq]
    have hih := ih { s with free_chunks_ := s.mem s.free_chunks_ } tail
      (by
        show freeListIs s.mem (s.mem s.free_chunks_) qs tail
        rw [hh]; exact hrest)
    constructor
    · show (allocN (qs.length + 1) s).1 = q :: qs
      rw [allocN_succ_fst, ha1, ha2, hih.1, hh]
    · show (allocN (qs.length + 1) s).2 = { s with free_chunks_ := tail }
      calc (allocN (qs.length + 1) s).2
          = (allocN qs.length (allocate s).2).2 := rfl
        _ = (allocN qs.length { s with free_chunks_ := s.mem s.free_chunks_ }).2 := by
            rw [ha2]
        _ = { s with free_chunks_ := tail } := hih.2

/-- C3: after any run producing state `s0`, allocate `N` chunks, then
deallocate all of them in any order `qs` (a permutation of the returned
addresses, all non-null and distinct); allocating `N` chunks again returns
exactly `qs.reverse` — the same set of addresses, most-recently-freed
first — and the second round allocates no new block (`alloc_count` and
`blocks` unchanged) and does not move the bump cursor. -/
theorem reuse_same_addresses_lifo (s0 : MPState) (N : Nat) (qs : List Nat)
    (hperm : qs.Perm (allocN N s0).1)
    (hnodup : qs.Nodup) (h0 : (0 : Nat) ∉ qs) :
    (allocN N (deallocList (allocN N s0).2 qs)).1 = qs.reverse ∧
    (allocN N (deallocList (allocN N s0).2 qs)).1.Perm (allocN N s0).1 ∧
    (allocN N (deallocList (allocN N s0).2 qs)).2.alloc_count =
      (allocN N s0).2.alloc_count ∧
    (allocN N (deallocList (allocN N s0).2 qs)).2.blocks =
      (allocN N s0).2.blocks ∧
    (allocN N (deallocList (allocN N s0).2 qs)).2.current_chunk_ =
      (allocN N s0).2.current_chunk_ ∧
    (allocN N (deallocList (allocN N s0).2 qs)).2.free_chunks_ =
      (allocN N s0).2.free_chunks_ := by
  have hlen : qs.length = N := by rw [hperm.length_eq, allocN_length]
  have hrep := deallocList_builds_free_list qs (allocN N s0).2 h0 hnodup
  have hpops := allocN_pops qs.reverse (deallocList (allocN N s0).2 qs)
    (allocN N s0).2.free_chunks_ hrep
  have hrevlen : qs.reverse.length = N := by rw [List.length_reverse, hlen]
  rw [hrevlen] at hpops
  obtain ⟨hfst, hsnd⟩ := hpops
  have hframe := deallocList_frame qs (allocN N s0).2
  refine ⟨hfst, ?_, ?_, ?_, ?_, ?_⟩
  · rw [hfst]; exact (List.reverse_perm qs).trans hperm
  · rw [hsnd]; exact hframe.1
  · rw [hsnd]; exact hframe.2.1
  · rw [hsnd]; exact hframe.2.2.1
  · rw [hsnd]

theorem reuse_same_addresses_lifo_witness :
    ([120, 112] : List Nat).Perm
      (allocN 2 (mkPool 8 8 2 (fun k => 96 + 96 * k))).1 ∧
    ([120, 112] : List Nat).Nodup ∧
    (0 : Nat) ∉ ([120, 112] : List Nat) ∧
    ((allocN 2 (deallocList (allocN 2 (mkPool 8 8 2 (fun k => 96 + 96 * k))).2
        [120, 112])).1 = ([120, 112] : List Nat).reverse ∧
     (allocN 2 (deallocList (allocN 2 (mkPool 8 8 2 (fun k => 96 + 96 * k))).2
        [120, 112])).1.Perm (allocN 2 (mkPool 8 8 2 (fun k => 96 + 96 * k))).1 ∧
     (allocN 2 (deallocList (allocN 2 (mkPool 8 8 2 (fun k => 96 + 96 * k))).2
        [120, 112])).2.alloc_count =
       (allocN 2 (mkPool 8 8 2 (fun k => 96 + 96 * k))).2.alloc_count ∧
     (allocN 2 (deallocList (allocN 2 (mkPool 8 8 2 (fun k => 96 + 96 * k))).2
        [120, 112])).2.blocks =
       (allocN 2 (mkPool 8 8 2 (fun k => 96 + 96 * k))).2.blocks ∧
     (allocN 2 (deallocList (allocN 2 (mkPool 8 8 2 (fun k => 96 + 96 * k))).2
        [120, 112])).2.current_chunk_ =
       (allocN 2 (mkPool 8 8 2 (fun k => 96 + 96 * k))).2.current_chunk_ ∧
     (allocN 2 (deallocList (allocN 2 (mkPool 8 8 2 (fun k => 96 + 96 * k))).2
        [120, 112])).2.free_chunks_ =
       (allocN 2 (mkPool 8 8 2 (fun k => 96 + 96 * k))).2.free_chunks_) :=
  ⟨by decide, by decide, by decide,
   reuse_same_addresses_lifo (mkPool 8 8 2 (fun k => 96 + 96 * k)) 2 [120, 112]
     (by decide) (by decide) (by decide)⟩

/-! ## C9: the destructor releases every block exactly once -/

theorem freeBlocksWalk_of_chain : ∀ (bs : List Nat) (cur : Nat) (m : Nat → Nat),
    isBlockChain m cur bs = true → freeBlocksWalk m bs.length cur = bs := by
  intro bs
  induction bs with
  | nil => intro cur m _; rfl
  | cons b tl ih =>
    intro cur m hc
    simp only [isBlockChain, Bool.and_eq_true, beq_iff_eq, bne_iff_ne, ne_eq] at hc
    obtain ⟨⟨hcur, hb⟩, hrest⟩ := hc
    rw [show cur = b from hcur]
    show freeBlocksWalk m (tl.length + 1) b = b :: tl
    simp only [freeBlocksWalk]
    rw [if_pos hb, ih (m b) m hrest]

/-- C9: whenever the block list threaded through memory is exactly the list
of blocks ever allocated (with distinct bases), the destructor's teardown
walk releases the raw storage of every one of those blocks, exactly once
each, and releases nothing else — in particular it never visits an
individual chunk. -/
theorem destructor_releases_every_block_once (s : MPState)
    (hchain : isBlockChain s.mem s.current_block_ s.blocks = true)
    (hnodup : s.blocks.Nodup) :
    destructorFreed s = s.blocks ∧
    (∀ b ∈ s.blocks, (destructorFreed s).count b = 1) ∧
    (∀ x ∈ destructorFreed s, x ∈ s.blocks) := by
  have hd : destructorFreed s = s.blocks :=
    freeBlocksWalk_of_chain s.blocks s.current_block_ s.mem hchain
  refine ⟨hd, ?_, ?_⟩
  · intro b hb
    rw [hd]
    exact List.count_eq_one_of_mem hnodup hb
  · intro x hx
    rw [hd] at hx
    exact hx

/-- The pool `sC6` after three `allocate()` calls: two blocks, at 192
(current) and 96, linked `192 → 96 → nullptr` through memory. -/
def sC9 : MPState := (allocN 3 sC6).2

theorem destructor_releases_every_block_once_witness :
    isBlockChain sC9.mem sC9.current_block_ sC9.blocks = true ∧
    sC9.blocks.Nodup ∧
    (destructorFreed sC9 = sC9.blocks ∧
     (∀ b ∈ sC9.blocks, (destructorFreed sC9).count b = 1) ∧
     (∀ x ∈ destructorFreed sC9, x ∈ sC9.blocks)) :=
  ⟨by decide, by decide,
   destructor_releases_every_block_once sC9 (by decide) (by decide)⟩

end MemPool
